import Mathlib

/-!
Shallow embedding of the commit-message parser of git-journal
(src/parser.rs), together with theorems checking the specification
claims against it.

Strings are modelled as List Char. The three precompiled patterns
RE_TAGS, RE_FOOTER and RE_LIST are modelled structurally with the
leftmost, non-overlapping, multiline ^/$ and lazy-group semantics of
the regex crate; the nom 1.x combinators (tag, alt, opt inside chain,
alpha, digit, space, char, rest, many0) are modelled with their
three-valued result (Done / Error / Incomplete), where an optional
element propagates Incomplete and a tag on a too-short input returns
Incomplete.
-/

set_option maxRecDepth 4000

namespace GitJournal

/-! ## Data model (structs of src/parser.rs) -/

/-- Field prefix of the Rust struct is spelled prefixStr because the
word is reserved in Lean. -/
structure SummaryElement where
  prefixStr : List Char
  category : List Char
  text : List Char
  tags : List (List Char)
deriving Repr, DecidableEq

structure ListElement where
  category : List Char
  text : List Char
  tags : List (List Char)
deriving Repr, DecidableEq

structure ParagraphElement where
  text : List Char
  tags : List (List Char)
deriving Repr, DecidableEq

inductive BodyElement where
  | list (items : List ListElement)
  | paragraph (par : ParagraphElement)
deriving Repr, DecidableEq

structure FooterElement where
  key : List Char
  value : List Char
deriving Repr, DecidableEq

structure ParsedCommit where
  summary : SummaryElement
  body : List BodyElement
  footer : List FooterElement
deriving Repr, DecidableEq

/-- Error enum of src/parser.rs restricted to the variants the parser
itself can produce (Terminal and Io belong to the rendering layer). -/
inductive Error where
  | summaryParsing (line : List Char)
  | footerParsing (block : List Char)
  | commitMessageLength
deriving Repr, DecidableEq

instance {ε α : Type} [DecidableEq ε] [DecidableEq α] : DecidableEq (Except ε α) := fun a b =>
  match a, b with
  | .ok x, .ok y =>
    if h : x = y then .isTrue (by rw [h]) else .isFalse (fun hc => h (Except.ok.inj hc))
  | .error x, .error y =>
    if h : x = y then .isTrue (by rw [h]) else .isFalse (fun hc => h (Except.error.inj hc))
  | .ok _, .error _ => .isFalse (fun hc => Except.noConfusion hc)
  | .error _, .ok _ => .isFalse (fun hc => Except.noConfusion hc)

/-! ## Character classes and string helpers -/

/-- Whitespace as matched by regex \s and by Rust str::trim on ASCII
input: space, tab, newline, carriage return, vertical tab, form feed. -/
def isWsChar (c : Char) : Bool :=
  c == ' ' || c == '\t' || c == '\n' || c == '\r' || c == Char.ofNat 11 || c == Char.ofNat 12

/-- Word characters of the regex class [\w-] used by RE_FOOTER. -/
def isFooterKeyChar (c : Char) : Bool :=
  c.isAlphanum || c == '_' || c == '-'

/-- Rust str::trim. -/
def rustTrim (s : List Char) : List Char :=
  ((s.dropWhile isWsChar).reverse.dropWhile isWsChar).reverse

/-- Split on every occurrence of a single separator character, like
Rust str::split(char). Always returns at least one piece. -/
def splitOn (sep : Char) : List Char → List (List Char)
  | [] => [[]]
  | c :: r =>
    if c == sep then [] :: splitOn sep r
    else
      match splitOn sep r with
      | [] => [[c]]
      | h :: t => (c :: h) :: t

/-- Rust message.split with two consecutive newlines as the pattern:
leftmost non-overlapping occurrences of the two-character separator.
Always returns at least one piece. -/
def splitBlocks : List Char → List (List Char)
  | '\n' :: '\n' :: rest => [] :: splitBlocks rest
  | c :: rest =>
    match splitBlocks rest with
    | [] => [[c]]
    | h :: t => (c :: h) :: t
  | [] => [[]]

/-- Rust str::lines strips one trailing carriage return from a line. -/
def stripCr (l : List Char) : List Char :=
  match l.getLast? with
  | some '\r' => l.dropLast
  | _ => l

/-- Rust str::lines: split on newline, drop a final empty piece
(covers both the empty string and a trailing newline). -/
def rustLines (s : List Char) : List (List Char) :=
  let ps := splitOn '\n' s
  let ps := match ps.getLast? with
    | some [] => ps.dropLast
    | _ => ps
  ps.map stripCr

/-! ## RE_TAGS, the tag extractor

Pattern space colon (lazy capture) colon. The dot does not match a
newline; lazy matching ends the capture at the first following colon. -/

/-- Scan for the first colon on the current line; the consumed span is
the capture of the lazy group. -/
def tagCapture : List Char → Option (List Char × List Char)
  | [] => none
  | ':' :: r => some ([], r)
  | '\n' :: _ => none
  | c :: r =>
    match tagCapture r with
    | some (cap, rest) => some (c :: cap, rest)
    | none => none

/-- Does a RE_TAGS match start at the head of the input; if so return
the capture and the input after the match. -/
def tagMatchAt : List Char → Option (List Char × List Char)
  | ' ' :: ':' :: r => tagCapture r
  | _ => none

/-- Leftmost, non-overlapping scan collecting all captures and the
input with every match removed (replace_all with the empty string).
Fuel bounds the recursion; each step consumes at least one character,
so fuel equal to the length is always sufficient. -/
def tagScanF : Nat → List Char → List (List Char) × List Char
  | _, [] => ([], [])
  | 0, s => ([], s)
  | fuel + 1, c :: cs =>
    match tagMatchAt (c :: cs) with
    | some (cap, rest) =>
      let p := tagScanF fuel rest
      (cap :: p.1, p.2)
    | none =>
      let p := tagScanF fuel cs
      (p.1, c :: p.2)

/-- Does the tag-marker pattern match anywhere in the input. -/
def hasTagMatch : List Char → Bool
  | [] => false
  | c :: cs => (tagMatchAt (c :: cs)).isSome || hasTagMatch cs

/-- parse_and_consume_tags of src/parser.rs: every capture is split on
commas, each piece trimmed, all appended in order; the returned text
has all matches removed. -/
def parse_and_consume_tags (input : List Char) : List (List Char) × List Char :=
  let p := tagScanF input.length input
  (p.1.flatMap (fun cap => (splitOn ',' cap).map rustTrim), p.2)

/-! ## RE_FOOTER, multiline key colon value -/

/-- Attempt a RE_FOOTER match at a line start: a nonempty run of word
or hyphen characters, a colon, one \s character, then the lazy rest of
the line the value sits on (when the \s character is the newline the
value is the whole next line). Returns key, value and the input right
after the match (which is either empty or starts at a newline). -/
def footerMatchAtLine (s : List Char) : Option (List Char × List Char × List Char) :=
  let key := s.takeWhile isFooterKeyChar
  if key.isEmpty then none
  else
    match s.drop key.length with
    | ':' :: w :: r =>
      if isWsChar w then
        some (key, r.takeWhile (fun c => !(c == '\n')), r.dropWhile (fun c => !(c == '\n')))
      else none
    | _ => none

/-- Advance past the next newline (or to the end of input). -/
def skipToNextLine (s : List Char) : List Char :=
  match s.dropWhile (fun c => !(c == '\n')) with
  | [] => []
  | _ :: r => r

/-- captures_iter over RE_FOOTER: visit line starts left to right and
collect the two capture groups of every match, as the optional groups
the Rust Captures API exposes. Fuel equal to the length is always
sufficient since each step consumes at least one character. -/
def footerScanF : Nat → List Char → List (Option (List Char) × Option (List Char))
  | _, [] => []
  | 0, _ => []
  | fuel + 1, c :: cs =>
    match footerMatchAtLine (c :: cs) with
    | some (k, v, rest) => (some k, some v) :: footerScanF fuel (skipToNextLine rest)
    | none => footerScanF fuel (skipToNextLine (c :: cs))

def footerScan (s : List Char) : List (Option (List Char) × Option (List Char)) :=
  footerScanF s.length s

/-- RE_FOOTER.is_match: a match exists iff the scan finds one. -/
def footerIsMatch (s : List Char) : Bool :=
  !(footerScan s).isEmpty

/-! ## RE_LIST, multiline list block pattern

With multiline anchors and an unanchored search, the mandatory first
part of the pattern (line start, hyphen, \s, lazy rest of line) has a
match iff some line start is followed by a hyphen and a whitespace
character; the starred continuation part never affects is_match. -/

def headIsWs : List Char → Bool
  | d :: _ => isWsChar d
  | [] => false

def listIsMatchAux : Bool → List Char → Bool
  | _, [] => false
  | atStart, c :: cs =>
    (atStart && c == '-' && headIsWs cs) || listIsMatchAux (c == '\n') cs

/-- RE_LIST.is_match. -/
def listIsMatch (s : List Char) : Bool :=
  listIsMatchAux true s

/-! ## nom 1.x combinators -/

inductive NomRes (α : Type) where
  | done (rest : List Char) (val : α)
  | err
  | incomplete
deriving Repr, DecidableEq

def isDoneRes {α : Type} : NomRes α → Bool
  | .done _ _ => true
  | _ => false

/-- nom tag: compare with the input up to the shorter length; a
mismatch is an error, a proper prefix of the tag is Incomplete. -/
def nomTag (t : List Char) (i : List Char) : NomRes (List Char) :=
  if i.take (min i.length t.length) = t.take (min i.length t.length) then
    if min i.length t.length < t.length then .incomplete else .done (i.drop t.length) t
  else .err

/-- Sequencing inside chain: errors and Incomplete propagate. -/
def nomBind {α β : Type} (r : NomRes α) (f : List Char → α → NomRes β) : NomRes β :=
  match r with
  | .done rest v => f rest v
  | .err => .err
  | .incomplete => .incomplete

/-- Optional chain element: an error restores the input, Incomplete
propagates. -/
def nomOpt {α : Type} (i : List Char) (r : NomRes α) : NomRes (Option α) :=
  match r with
  | .done rest v => .done rest (some v)
  | .err => .done i none
  | .incomplete => .incomplete

/-- nom char parser: Incomplete on empty input. -/
def nomChar (c : Char) (i : List Char) : NomRes Char :=
  match i with
  | [] => .incomplete
  | x :: r => if x == c then .done r x else .err

/-- nom alpha, digit and space all scan a run of a character class: an
error when the first character is outside the class, otherwise the
maximal run (possibly empty at the end of input). -/
def nomCharClass (p : Char → Bool) (i : List Char) : NomRes (List Char) :=
  match i with
  | [] => .done [] []
  | c :: _ => if p c then .done (i.dropWhile p) (i.takeWhile p) else .err

def isNomSpace (c : Char) : Bool := c == ' ' || c == '\t'

/-- nom alt over literal tags: Done and Incomplete stop the scan, an
error moves to the next alternative. -/
def nomAltTags : List (List Char) → List Char → NomRes (List Char)
  | [], _ => .err
  | t :: ts, i =>
    match nomTag t i with
    | .done r v => .done r v
    | .incomplete => .incomplete
    | .err => nomAltTags ts i

/-! ## The three named parsers and the orchestrator -/

def categoryWords : List (List Char) :=
  ["Added".toList, "Changed".toList, "Fixed".toList, "Improved".toList, "Removed".toList]

/-- parse_category of src/parser.rs: optional opening bracket, one of
the five category words, optional closing bracket. -/
def parse_category (i : List Char) : NomRes (List Char) :=
  nomBind (nomOpt i (nomTag ['['] i)) fun i1 _ =>
  nomBind (nomAltTags categoryWords i1) fun i2 cat =>
  nomBind (nomOpt i2 (nomTag [']'] i2)) fun i3 _ =>
  .done i3 cat

/-- parse_list_item of src/parser.rs: many0 of space, the literal
hyphen-space, a mandatory category, then the rest through the tag
extractor. -/
def parse_list_item (i : List Char) : NomRes ListElement :=
  let i0 := i.dropWhile isNomSpace
  nomBind (nomTag ['-', ' '] i0) fun i1 _ =>
  nomBind (parse_category i1) fun i2 cat =>
  let tr := parse_and_consume_tags i2
  .done [] { category := cat, text := tr.2, tags := tr.1 }

/-- parse_summary of src/parser.rs: optional prefix (alpha run,
hyphen, digit run), optional space run, a mandatory category, a
defensive optional closing bracket, then the rest through the tag
extractor. -/
def parse_summary (i : List Char) : NomRes SummaryElement :=
  let sep : NomRes (List Char × List Char) :=
    nomBind (nomCharClass Char.isAlpha i) fun j a =>
    nomBind (nomChar '-' j) fun k _ =>
    nomBind (nomCharClass Char.isDigit k) fun l d =>
    .done l (a, d)
  nomBind (nomOpt i sep) fun i1 pre =>
  nomBind (nomOpt i1 (nomCharClass isNomSpace i1)) fun i2 _ =>
  nomBind (parse_category i2) fun i3 cat =>
  nomBind (nomOpt i3 (nomTag [']'] i3)) fun i4 _ =>
  let tr := parse_and_consume_tags i4
  .done [] {
    prefixStr := match pre with
      | none => []
      | some (a, d) => a ++ '-' :: d,
    category := cat,
    text := tr.2,
    tags := tr.1 }

/-- List items collected from a list-classified block: each line is
parsed independently and failing lines are dropped. -/
def listItems (part : List Char) : List ListElement :=
  (rustLines part).filterMap fun l =>
    match parse_list_item l with
    | .done _ r => some r
    | _ => none

/-- Footer elements pushed for one footer-classified block, mirroring
the try on each optional capture group. -/
def pushFooters (part : List Char) :
    List (Option (List Char) × Option (List Char)) → List FooterElement →
    Except Error (List FooterElement)
  | [], acc => .ok acc
  | (k?, v?) :: caps, acc =>
    match k? with
    | none => .error (.footerParsing part)
    | some k =>
      match v? with
      | none => .error (.footerParsing part)
      | some v => pushFooters part caps (acc ++ [{ key := k, value := v }])

/-- The block loop of parse_commit_message: footer check first, then
list check, otherwise paragraph. -/
def processParts : List (List Char) → ParsedCommit → Except Error ParsedCommit
  | [], acc => .ok acc
  | part :: rest, acc =>
    if footerIsMatch part then
      match pushFooters part (footerScan part) acc.footer with
      | .ok newFooter => processParts rest { acc with footer := newFooter }
      | .error e => .error e
    else if listIsMatch part then
      processParts rest { acc with body := acc.body ++ [.list (listItems part)] }
    else
      let tr := parse_and_consume_tags part
      processParts rest
        { acc with body := acc.body ++ [.paragraph { text := rustTrim tr.2, tags := tr.1 }] }

/-- parse_commit_message of src/parser.rs. -/
def parse_commit_message (message : List Char) : Except Error ParsedCommit :=
  let parts := splitBlocks message
  match parts with
  | [] => .error .commitMessageLength
  | summaryBlock :: restParts =>
    let summaryLine := rustTrim summaryBlock
    match parse_summary summaryLine with
    | .done _ parsed => processParts restParts { summary := parsed, body := [], footer := [] }
    | _ => .error (.summaryParsing summaryLine)

/-! ## Derived descriptions of the block loop, used in the theorems -/

/-- Footer elements a footer-classified block contributes, in line
order. -/
def capsToElems (caps : List (Option (List Char) × Option (List Char))) : List FooterElement :=
  caps.filterMap fun p =>
    match p with
    | (some k, some v) => some { key := k, value := v }
    | _ => none

def footerElems (part : List Char) : List FooterElement :=
  capsToElems (footerScan part)

def mkParagraph (part : List Char) : ParagraphElement :=
  { text := rustTrim (parse_and_consume_tags part).2, tags := (parse_and_consume_tags part).1 }

/-- Body element a non-footer block contributes. -/
def bodyOf (part : List Char) : Option BodyElement :=
  if footerIsMatch part then none
  else if listIsMatch part then some (.list (listItems part))
  else some (.paragraph (mkParagraph part))

/-- Footer elements a block contributes. -/
def footOf (part : List Char) : List FooterElement :=
  if footerIsMatch part then footerElems part else []

def isFooterParsingError : Except Error ParsedCommit → Bool
  | .error (.footerParsing _) => true
  | _ => false

def isLengthError : Except Error ParsedCommit → Bool
  | .error .commitMessageLength => true
  | _ => false

/-- Skipping the optional opening bracket, for describing where the
category alternatives are tried. -/
def afterOptBracket : List Char → List Char
  | '[' :: r => r
  | s => s

/-! ## Structural lemmas -/

theorem splitBlocks_ne_nil (s : List Char) : splitBlocks s ≠ [] := by
  unfold splitBlocks
  split
  · simp
  · split <;> simp
  · simp

theorem footerScanF_groups (fuel : Nat) :
    ∀ (s : List Char) p, p ∈ footerScanF fuel s → ∃ k v, p = (some k, some v) := by
  induction fuel with
  | zero =>
    intro s p hp
    cases s <;> simp [footerScanF] at hp
  | succ n ih =>
    intro s p hp
    cases s with
    | nil => simp [footerScanF] at hp
    | cons c cs =>
      rw [footerScanF] at hp
      split at hp
      · rename_i k v rest _
        rcases List.mem_cons.mp hp with rfl | hp'
        · exact ⟨k, v, rfl⟩
        · exact ih _ _ hp'
      · exact ih _ _ hp

theorem pushFooters_ok (part : List Char) :
    ∀ (caps : List (Option (List Char) × Option (List Char))) (acc : List FooterElement),
      (∀ p ∈ caps, ∃ k v, p = (some k, some v)) →
      pushFooters part caps acc = .ok (acc ++ capsToElems caps) := by
  intro caps
  induction caps with
  | nil => intro acc _; simp [pushFooters, capsToElems]
  | cons hd tl ih =>
    intro acc h
    obtain ⟨k, v, rfl⟩ := h hd (List.mem_cons_self hd tl)
    rw [pushFooters]
    have hih := ih (acc ++ [{ key := k, value := v }])
      (fun p hp => h p (List.mem_cons_of_mem _ hp))
    rw [hih]
    simp [capsToElems]

theorem processParts_eq :
    ∀ (parts : List (List Char)) (acc : ParsedCommit),
      processParts parts acc =
        .ok ⟨acc.summary, acc.body ++ parts.filterMap bodyOf, acc.footer ++ parts.flatMap footOf⟩ := by
  intro parts
  induction parts with
  | nil => intro acc; simp [processParts]
  | cons part rest ih =>
    intro acc
    rw [processParts]
    by_cases hf : footerIsMatch part = true
    · rw [if_pos hf,
        pushFooters_ok part (footerScan part) acc.footer (footerScanF_groups _ _)]
      simp [ih, bodyOf, footOf, hf, footerElems]
    · rw [if_neg hf]
      rw [Bool.not_eq_true] at hf
      by_cases hl : listIsMatch part = true
      · rw [if_pos hl, ih]
        simp [bodyOf, footOf, hf, hl]
      · rw [if_neg hl, ih]
        rw [Bool.not_eq_true] at hl
        simp [bodyOf, footOf, hf, hl, mkParagraph]

theorem parse_commit_message_eq (msg b0 : List Char) (rest : List (List Char))
    (h : splitBlocks msg = b0 :: rest) :
    parse_commit_message msg =
      match parse_summary (rustTrim b0) with
      | .done _ ps => .ok ⟨ps, rest.filterMap bodyOf, rest.flatMap footOf⟩
      | _ => .error (.summaryParsing (rustTrim b0)) := by
  simp only [parse_commit_message, h]
  cases hs : parse_summary (rustTrim b0) with
  | done r ps => simp [processParts_eq]
  | err => rfl
  | incomplete => rfl

/-! ## Lemmas on the nom combinators -/

theorem nomTag_done {t i r v} (h : nomTag t i = NomRes.done r v) :
    v = t ∧ t <+: i := by
  unfold nomTag at h
  split at h
  · split at h
    · exact absurd h (by simp)
    · rename_i htake hlen
      injection h with h1 h2
      refine ⟨h2.symm, ?_⟩
      have hle : t.length ≤ i.length := by
        rcases Nat.le_total i.length t.length with hc | hc
        · have : min i.length t.length = i.length := Nat.min_eq_left hc
          rw [this] at hlen
          omega
        · exact hc
      have hmin : min i.length t.length = t.length := Nat.min_eq_right hle
      rw [hmin] at htake
      rw [List.take_of_length_le (Nat.le_refl t.length)] at htake
      exact List.prefix_iff_eq_take.mpr (by rw [htake])
  · exact absurd h (by simp)

theorem nomAltTags_done_mem {ts : List (List Char)} {i r v}
    (h : nomAltTags ts i = NomRes.done r v) : v ∈ ts := by
  induction ts with
  | nil => simp [nomAltTags] at h
  | cons t ts ih =>
    rw [nomAltTags] at h
    cases ht : nomTag t i with
    | done r' v' =>
      rw [ht] at h
      injection h with h1 h2
      subst h2
      exact (nomTag_done ht).1 ▸ List.mem_cons_self _ _
    | err =>
      rw [ht] at h
      exact List.mem_cons_of_mem _ (ih h)
    | incomplete => rw [ht] at h; exact absurd h (by simp)

theorem nomAltTags_not_done {ts : List (List Char)} {i : List Char}
    (h : ∀ t ∈ ts, ¬ (t <+: i)) : isDoneRes (nomAltTags ts i) = false := by
  induction ts with
  | nil => rfl
  | cons t ts ih =>
    rw [nomAltTags]
    cases ht : nomTag t i with
    | done r v => exact absurd (nomTag_done ht).2 (h t (List.mem_cons_self _ _))
    | err => exact ih (fun t' ht' => h t' (List.mem_cons_of_mem _ ht'))
    | incomplete => rfl

theorem nomBind_not_done {α β : Type} {x : NomRes α} {f : List Char → α → NomRes β}
    (h : isDoneRes x = false) : isDoneRes (nomBind x f) = false := by
  cases x with
  | done r v => simp [isDoneRes] at h
  | err => rfl
  | incomplete => rfl

theorem parse_category_done_mem {i r cat} (h : parse_category i = NomRes.done r cat) :
    cat ∈ categoryWords := by
  unfold parse_category at h
  cases h0 : nomOpt i (nomTag ['['] i) with
  | done i1 o =>
    rw [h0] at h
    simp only [nomBind] at h
    cases h1 : nomAltTags categoryWords i1 with
    | done i2 v =>
      rw [h1] at h
      simp only [nomBind] at h
      cases h2 : nomOpt i2 (nomTag [']'] i2) with
      | done i3 o2 =>
        rw [h2] at h
        simp only [nomBind] at h
        injection h with ha hb
        subst hb
        exact nomAltTags_done_mem h1
      | err => rw [h2] at h; simp [nomBind] at h
      | incomplete => rw [h2] at h; simp [nomBind] at h
    | err => rw [h1] at h; simp [nomBind] at h
    | incomplete => rw [h1] at h; simp [nomBind] at h
  | err => rw [h0] at h; simp [nomBind] at h
  | incomplete => rw [h0] at h; simp [nomBind] at h

theorem parse_category_not_done (s : List Char)
    (h : ∀ c ∈ categoryWords, ¬ (c <+: afterOptBracket s)) :
    isDoneRes (parse_category s) = false := by
  cases s with
  | nil => rfl
  | cons c r =>
    by_cases hc : c = '['
    · subst hc
      have h1 : nomTag ['['] ('[' :: r) = NomRes.done r ['['] := by
        unfold nomTag
        simp [Nat.succ_min_succ]
      have h2 : afterOptBracket ('[' :: r) = r := rfl
      rw [h2] at h
      unfold parse_category
      rw [h1]
      simp only [nomOpt, nomBind]
      exact nomBind_not_done (nomAltTags_not_done h)
    · have h1 : nomTag ['['] (c :: r) = NomRes.err := by
        unfold nomTag
        simp [Nat.succ_min_succ]
        intro hcc
        exact absurd hcc hc
      have h2 : afterOptBracket (c :: r) = c :: r := by
        unfold afterOptBracket
        split
        · rename_i heq
          injection heq with he1 he2
          exact absurd he1 hc
        · rfl
      rw [h2] at h
      unfold parse_category
      rw [h1]
      simp only [nomOpt, nomBind]
      exact nomBind_not_done (nomAltTags_not_done h)

theorem parse_list_item_category {l r : List Char} {item : ListElement}
    (h : parse_list_item l = NomRes.done r item) : item.category ∈ categoryWords := by
  unfold parse_list_item at h
  simp only [] at h
  cases h1 : nomTag ['-', ' '] (l.dropWhile isNomSpace) with
  | done i1 v =>
    rw [h1] at h
    simp only [nomBind] at h
    cases h2 : parse_category i1 with
    | done i2 cat =>
      rw [h2] at h
      simp only [nomBind] at h
      injection h with ha hb
      subst hb
      exact parse_category_done_mem h2
    | err => rw [h2] at h; simp [nomBind] at h
    | incomplete => rw [h2] at h; simp [nomBind] at h
  | err => rw [h1] at h; simp [nomBind] at h
  | incomplete => rw [h1] at h; simp [nomBind] at h

/-! ## Semantic characterization of the RE_LIST match -/

/-- The part of the input before a match ends with a newline, in other
words the match sits at a line start. -/
def EndsNl (pre : List Char) : Prop := ∃ pre0, pre = pre0 ++ ['\n']

/-- A RE_LIST match exists in s: some line start is followed by a
hyphen and a whitespace character. -/
def ListMatchSpec (s : List Char) : Prop :=
  ∃ pre c r2, s = pre ++ '-' :: c :: r2 ∧ isWsChar c = true ∧ (pre = [] ∨ EndsNl pre)

theorem listIsMatchAux_iff :
    ∀ (s : List Char) (b : Bool),
      listIsMatchAux b s = true ↔
        ∃ pre c r2, s = pre ++ '-' :: c :: r2 ∧ isWsChar c = true ∧
          ((pre = [] ∧ b = true) ∨ EndsNl pre) := by
  intro s
  induction s with
  | nil =>
    intro b
    simp [listIsMatchAux]
  | cons x xs ih =>
    intro b
    have hunf : listIsMatchAux b (x :: xs)
        = ((b && x == '-' && headIsWs xs) || listIsMatchAux (x == '\n') xs) := rfl
    rw [hunf]
    constructor
    · intro h
      rcases Bool.or_eq_true_iff.mp h with hl | hr
      · rcases Bool.and_eq_true_iff.mp hl with ⟨hba, hws⟩
        rcases Bool.and_eq_true_iff.mp hba with ⟨hb, hx⟩
        cases xs with
        | nil => simp [headIsWs] at hws
        | cons d ds =>
          refine ⟨[], d, ds, ?_, by simpa [headIsWs] using hws, Or.inl ⟨rfl, hb⟩⟩
          simp [beq_iff_eq.mp hx]
      · obtain ⟨pre, c, r2, hx, hw, hcond⟩ := (ih (x == '\n')).mp hr
        refine ⟨x :: pre, c, r2, by rw [hx]; rfl, hw, Or.inr ?_⟩
        rcases hcond with ⟨rfl, hb⟩ | ⟨pre0, rfl⟩
        · exact ⟨[], by simp [beq_iff_eq.mp hb]⟩
        · exact ⟨x :: pre0, by simp⟩
    · rintro ⟨pre, c, r2, hs, hw, hcond⟩
      apply Bool.or_eq_true_iff.mpr
      cases pre with
      | nil =>
        rcases hcond with ⟨_, hb⟩ | ⟨pre0, hpre⟩
        · injection hs with hx hxs
          subst hx
          subst hxs
          left
          simp [hb, hw, headIsWs]
        · simp at hpre
      | cons p ps =>
        injection hs with hx hxs
        subst hx
        right
        apply (ih (x == '\n')).mpr
        refine ⟨ps, c, r2, hxs, hw, ?_⟩
        rcases hcond with ⟨h0, _⟩ | ⟨pre0, hp⟩
        · exact absurd h0 (by simp)
        · cases pre0 with
          | nil =>
            simp at hp
            left
            exact ⟨hp.2, by simp [hp.1]⟩
          | cons q qs =>
            simp at hp
            right
            exact ⟨qs, hp.2.symm ▸ rfl⟩

theorem listIsMatch_iff (s : List Char) : listIsMatch s = true ↔ ListMatchSpec s := by
  rw [listIsMatch, listIsMatchAux_iff]
  unfold ListMatchSpec
  constructor
  · rintro ⟨pre, c, r2, hs, hw, hcond⟩
    refine ⟨pre, c, r2, hs, hw, ?_⟩
    rcases hcond with ⟨h0, _⟩ | h1
    · exact Or.inl h0
    · exact Or.inr h1
  · rintro ⟨pre, c, r2, hs, hw, hcond⟩
    refine ⟨pre, c, r2, hs, hw, ?_⟩
    rcases hcond with h0 | h1
    · exact Or.inl ⟨h0, rfl⟩
    · exact Or.inr h1

/-! ## Tag extractor lemma: inputs with no match are fixed points -/

theorem tagScanF_no_match (fuel : Nat) :
    ∀ (s : List Char), hasTagMatch s = false → tagScanF fuel s = ([], s) := by
  induction fuel with
  | zero =>
    intro s _
    cases s <;> rfl
  | succ n ih =>
    intro s h
    cases s with
    | nil => rfl
    | cons c cs =>
      rw [hasTagMatch] at h
      rcases Bool.or_eq_false_iff.mp h with ⟨h1, h2⟩
      have hm : tagMatchAt (c :: cs) = none := by
        cases hmm : tagMatchAt (c :: cs) with
        | none => rfl
        | some p => rw [hmm] at h1; simp at h1
      rw [tagScanF, hm, ih cs h2]

/-! ## Claim theorems -/

/-- Claim C1: the claim says empty or whitespace-only input fails with
CommitMessageLength. In the code, split always yields at least one
piece, so the nth(0) check can never fire and the CommitMessageLength
error is unreachable; an empty or whitespace-only message instead
fails with SummaryParsing carrying the empty trimmed line. This
theorem records the actual behaviour at the failing inputs and that no
input at all produces the CommitMessageLength error. -/
theorem claim1_dead_length_check :
    parse_commit_message [] = Except.error (Error.summaryParsing []) ∧
    parse_commit_message (" ").toList = Except.error (Error.summaryParsing []) ∧
    ∀ msg : List Char, isLengthError (parse_commit_message msg) = false := by
  refine ⟨rfl, rfl, fun msg => ?_⟩
  obtain ⟨b0, rest, hsplit⟩ : ∃ b0 rest, splitBlocks msg = b0 :: rest := by
    cases h : splitBlocks msg with
    | nil => exact absurd h (splitBlocks_ne_nil msg)
    | cons a b => exact ⟨a, b, rfl⟩
  rw [parse_commit_message_eq msg b0 rest hsplit]
  cases parse_summary (rustTrim b0) <;> rfl

/-- Claim C2 counterexample: the scenario input does not parse to the
claimed value, because the summary grammar consumes no whitespace
after the category, so the summary text keeps its leading space. -/
theorem claim2_counterexample :
    parse_commit_message
        ("AB-1 [Added] Support foo :api,core:\n\nSome details.\n\nCloses: AB-1").toList ≠
      Except.ok ⟨⟨("AB-1").toList, ("Added").toList, ("Support foo").toList,
          [("api").toList, ("core").toList]⟩,
        [BodyElement.paragraph ⟨("Some details.").toList, []⟩],
        [⟨("Closes").toList, ("AB-1").toList⟩]⟩ := by
  decide

/-- Claim C2 (amended): the scenario parses exactly as claimed except
that the summary text is the leading-space string, since nothing after
the category bracket is trimmed from the summary remainder. -/
theorem claim2_scenario :
    parse_commit_message
        ("AB-1 [Added] Support foo :api,core:\n\nSome details.\n\nCloses: AB-1").toList =
      Except.ok ⟨⟨("AB-1").toList, ("Added").toList, (" Support foo").toList,
          [("api").toList, ("core").toList]⟩,
        [BodyElement.paragraph ⟨("Some details.").toList, []⟩],
        [⟨("Closes").toList, ("AB-1").toList⟩]⟩ := by
  rfl

/-- Claim C3 counterexample: tag extraction is not idempotent on its
own output. Removing the leftmost marker of the input below glues a
space-ending gap onto a colon-starting gap, creating a fresh marker in
the cleaned text, so a second extraction run still finds a match. -/
theorem claim3_counterexample :
    parse_and_consume_tags ("A  :m::b:").toList = ([("m").toList], ("A :b:").toList) ∧
    parse_and_consume_tags ("A :b:").toList ≠ ([], ("A :b:").toList) := by
  refine ⟨by rfl, by decide⟩

/-- Claim C3 (amended): the tag extractor is the identity, with an
empty tag sequence, exactly on inputs in which the tag-marker pattern
has no match at all; its own cleaned output is not always such an
input, because removal can concatenate a space with a colon. -/
theorem claim3_no_match_fixed_point (s : List Char) (h : hasTagMatch s = false) :
    parse_and_consume_tags s = ([], s) := by
  unfold parse_and_consume_tags
  rw [tagScanF_no_match s.length s h]
  simp

theorem claim3_witness :
    hasTagMatch ("hello world").toList = false ∧
    parse_and_consume_tags ("hello world").toList = ([], ("hello world").toList) :=
  ⟨by decide, claim3_no_match_fixed_point _ (by decide)⟩

/-- Claim C4 counterexample: a list line whose text does not begin
with a category keyword does not yield a ListElement with an empty
category; parse_list_item fails on it and the line is dropped, leaving
an empty item list for the block. -/
theorem claim4_counterexample :
    parse_list_item ("- Support foo").toList = NomRes.err ∧
    parse_commit_message ("Added stuff\n\n- Support foo").toList =
      Except.ok ⟨⟨[], ("Added").toList, (" stuff").toList, []⟩, [BodyElement.list []], []⟩ :=
  ⟨by rfl, by rfl⟩

/-- Claim C4 (amended): the category is mandatory in a list item, so a
successfully parsed list item always carries one of the five category
words and its category is never the empty string; lines without a
category keyword fail to parse and are silently dropped. -/
theorem claim4_list_items_never_lack_category (l r : List Char) (item : ListElement)
    (h : parse_list_item l = NomRes.done r item) :
    item.category ∈ categoryWords ∧ item.category ≠ [] := by
  have hm := parse_list_item_category h
  have hm2 := hm
  simp only [categoryWords, List.mem_cons, List.not_mem_nil, or_false] at hm2
  refine ⟨hm, ?_⟩
  rcases hm2 with h5 | h5 | h5 | h5 | h5 <;> rw [h5] <;> decide

theorem claim4_witness :
    (⟨("Added").toList, (" x").toList, []⟩ : ListElement).category ∈ categoryWords ∧
    (⟨("Added").toList, (" x").toList, []⟩ : ListElement).category ≠ [] :=
  claim4_list_items_never_lack_category ("- Added x").toList []
    ⟨("Added").toList, (" x").toList, []⟩ (by rfl)

/-- Claim C5 counterexample: with no text after the optional closing
bracket the category parser returns Incomplete rather than success
(the optional bracket needs one more byte of input), and a category
word is matched as a bare prefix, so an input whose next token is not
a vocabulary word can still succeed. -/
theorem claim5_counterexample :
    parse_category ("Added").toList = NomRes.incomplete ∧
    parse_category ("[Improved").toList = NomRes.incomplete ∧
    parse_category ("Addedx").toList = NomRes.done (("x").toList) (("Added").toList) :=
  ⟨by rfl, by rfl, by rfl⟩

/-- Claim C5 (amended): every category word succeeds when the closing
bracket is present, with or without the opening bracket; with the word
at the very end of the input the parser instead returns Incomplete,
which callers treat as failure; and whenever no category word is a
literal prefix of the input after the optional opening bracket, the
parser does not succeed. -/
theorem claim5_category_grammar :
    (∀ c ∈ categoryWords,
        parse_category ('[' :: (c ++ [']'])) = NomRes.done [] c ∧
        parse_category (c ++ [']']) = NomRes.done [] c ∧
        parse_category ('[' :: c) = NomRes.incomplete ∧
        parse_category c = NomRes.incomplete) ∧
    (∀ s : List Char, (∀ c ∈ categoryWords, ¬ (c <+: afterOptBracket s)) →
        isDoneRes (parse_category s) = false) :=
  ⟨by decide, fun s h => parse_category_not_done s h⟩

theorem claim5_witness :
    (∀ c ∈ categoryWords, ¬ (c <+: afterOptBracket ("Support foo").toList)) ∧
    isDoneRes (parse_category ("Support foo").toList) = false :=
  ⟨by decide, claim5_category_grammar.2 _ (by decide)⟩

/-- Claim C6: the footer check is applied before the list check, so a
block matching the footer pattern is parsed as a footer block, with
the body left untouched, even when the block also matches the list
pattern. -/
theorem claim6_footer_priority (part : List Char) (rest : List (List Char)) (acc : ParsedCommit)
    (hf : footerIsMatch part = true) (_hl : listIsMatch part = true) :
    processParts (part :: rest) acc =
      processParts rest ⟨acc.summary, acc.body, acc.footer ++ footerElems part⟩ := by
  rw [processParts, if_pos hf,
    pushFooters_ok part (footerScan part) acc.footer (footerScanF_groups _ _)]
  rfl

theorem claim6_witness :
    footerIsMatch ("Closes: X\n- item").toList = true ∧
    listIsMatch ("Closes: X\n- item").toList = true ∧
    processParts [("Closes: X\n- item").toList] ⟨⟨[], [], [], []⟩, [], []⟩ =
      processParts [] ⟨⟨[], [], [], []⟩, [], [] ++ footerElems ("Closes: X\n- item").toList⟩ :=
  ⟨by decide, by decide, claim6_footer_priority _ [] _ (by decide) (by decide)⟩

/-- Claim C7 counterexample: a block whose first line does not begin
with the hyphen-space marker but whose second line does is classified
as a list, not as a paragraph, because the list pattern is anchored at
every line start in multiline mode and the search is not anchored to
the block start. -/
theorem claim7_counterexample :
    footerIsMatch ("foo\n- bar").toList = false ∧
    listIsMatch ("foo\n- bar").toList = true ∧
    parse_commit_message ("Added s\n\nfoo\n- bar").toList =
      Except.ok ⟨⟨[], ("Added").toList, (" s").toList, []⟩, [BodyElement.list []], []⟩ :=
  ⟨by rfl, by rfl, by rfl⟩

/-- Claim C7 (amended): a non-footer block is classified as a list
exactly when some line start in it is followed by a hyphen and a
whitespace character, not only when the first line is; otherwise it
becomes a paragraph. -/
theorem claim7_list_classification :
    (∀ s : List Char, listIsMatch s = true ↔ ListMatchSpec s) ∧
    (∀ (part : List Char) (rest : List (List Char)) (acc : ParsedCommit),
        footerIsMatch part = false → listIsMatch part = true →
        processParts (part :: rest) acc =
          processParts rest ⟨acc.summary, acc.body ++ [.list (listItems part)], acc.footer⟩) ∧
    (∀ (part : List Char) (rest : List (List Char)) (acc : ParsedCommit),
        footerIsMatch part = false → listIsMatch part = false →
        processParts (part :: rest) acc =
          processParts rest ⟨acc.summary, acc.body ++ [.paragraph (mkParagraph part)], acc.footer⟩) := by
  refine ⟨listIsMatch_iff, ?_, ?_⟩
  · intro part rest acc hf hl
    rw [processParts, if_neg (by simp [hf]), if_pos hl]
  · intro part rest acc hf hl
    rw [processParts, if_neg (by simp [hf]), if_neg (by simp [hl])]
    rfl

theorem claim7_witness :
    footerIsMatch ("foo\n- baz").toList = false ∧
    listIsMatch ("foo\n- baz").toList = true ∧
    processParts [("foo\n- baz").toList] ⟨⟨[], [], [], []⟩, [], []⟩ =
      processParts []
        ⟨⟨[], [], [], []⟩, [] ++ [BodyElement.list (listItems ("foo\n- baz").toList)], []⟩ :=
  ⟨by decide, by decide, claim7_list_classification.2.1 _ [] _ (by decide) (by decide)⟩

/-- Claim C8: on success, the body is exactly the sequence of elements
produced from the non-footer blocks in input order, and the footer is
exactly the concatenation of the footer elements of footer-classified
blocks in input block and line order; the two sequences are built
independently. -/
theorem claim8_order_stability (msg b0 : List Char) (rest : List (List Char)) (pc : ParsedCommit)
    (hsplit : splitBlocks msg = b0 :: rest)
    (hok : parse_commit_message msg = Except.ok pc) :
    pc.body = rest.filterMap bodyOf ∧ pc.footer = rest.flatMap footOf := by
  rw [parse_commit_message_eq msg b0 rest hsplit] at hok
  cases hs : parse_summary (rustTrim b0) with
  | done r ps =>
    rw [hs] at hok
    have hok2 : Except.ok
        (⟨ps, rest.filterMap bodyOf, rest.flatMap footOf⟩ : ParsedCommit) = Except.ok pc := hok
    injection hok2 with h1
    rw [← h1]
    exact ⟨rfl, rfl⟩
  | err =>
    rw [hs] at hok
    exact Except.noConfusion hok
  | incomplete =>
    rw [hs] at hok
    exact Except.noConfusion hok

def pcC8 : ParsedCommit :=
  ⟨⟨[], ("Fixed").toList, (" c").toList, []⟩,
    [BodyElement.list [⟨("Added").toList, (" x").toList, []⟩]],
    [⟨("K").toList, ("v").toList⟩]⟩

def restC8 : List (List Char) := [("K: v").toList, ("- Added x").toList]

theorem claim8_witness :
    pcC8.body = restC8.filterMap bodyOf ∧ pcC8.footer = restC8.flatMap footOf :=
  claim8_order_stability ("[Fixed] c\n\nK: v\n\n- Added x").toList ("[Fixed] c").toList
    restC8 pcC8 (by rfl) (by rfl)

/-- Claim C9: every match of the footer pattern carries both capture
groups, so the defensive FooterParsing branch is unreachable and no
input makes parse_commit_message return that error. -/
theorem claim9_footer_parsing_unreachable (msg : List Char) :
    isFooterParsingError (parse_commit_message msg) = false := by
  obtain ⟨b0, rest, hsplit⟩ : ∃ b0 rest, splitBlocks msg = b0 :: rest := by
    cases h : splitBlocks msg with
    | nil => exact absurd h (splitBlocks_ne_nil msg)
    | cons a b => exact ⟨a, b, rfl⟩
  rw [parse_commit_message_eq msg b0 rest hsplit]
  cases parse_summary (rustTrim b0) <;> rfl

/-- Claim C10: a non-footer, list-classified block after the first
in which no line parses as a list item still leaves the whole parse
successful and contributes an empty List body element occupying one
body position. -/
theorem claim10_empty_list_survives (msg b0 part : List Char)
    (parts1 parts2 : List (List Char)) (rest0 : List Char) (ps : SummaryElement)
    (hsplit : splitBlocks msg = b0 :: (parts1 ++ part :: parts2))
    (hsum : parse_summary (rustTrim b0) = NomRes.done rest0 ps)
    (hf : footerIsMatch part = false)
    (hl : listIsMatch part = true)
    (hitems : ∀ l ∈ rustLines part, isDoneRes (parse_list_item l) = false) :
    ∃ pc, parse_commit_message msg = Except.ok pc ∧ BodyElement.list [] ∈ pc.body := by
  rw [parse_commit_message_eq msg b0 _ hsplit, hsum]
  refine ⟨_, rfl, ?_⟩
  have hnil : listItems part = [] := by
    unfold listItems
    rw [List.filterMap_eq_nil_iff]
    intro l hm
    cases hd : parse_list_item l with
    | done r v =>
      have hdone := hitems l hm
      rw [hd] at hdone
      simp [isDoneRes] at hdone
    | err => rfl
    | incomplete => rfl
  have hb : bodyOf part = some (BodyElement.list []) := by
    simp [bodyOf, hf, hl, hnil]
  show BodyElement.list [] ∈ (parts1 ++ part :: parts2).filterMap bodyOf
  exact List.mem_filterMap.mpr ⟨part, by simp, hb⟩

theorem claim10_witness :
    ∃ pc, parse_commit_message ("Added stuff\n\n- Support foo").toList = Except.ok pc ∧
      BodyElement.list [] ∈ pc.body :=
  claim10_empty_list_survives _ ("Added stuff").toList ("- Support foo").toList [] [] []
    ⟨[], ("Added").toList, (" stuff").toList, []⟩ (by rfl) (by rfl) (by rfl) (by rfl)
    (by decide)

end GitJournal
